import Mathlib

/-
Verification development for the feishu-doc-comment plugin (src/plugin.ts).

The plugin polls Feishu documents for comments and replies via an agent.
This file gives a shallow embedding of its core logic:

* pure data mirrors the TypeScript interfaces (FeishuComment, FeishuReply,
  ProcessedState, PluginConfig, and the docx block shapes used by
  extractDocLinks);
* the external collaborators (axios transport results, the agent runtime,
  the host builtin decodeURIComponent) are modelled as an explicit `Env`
  record of oracle functions, so every operation becomes a pure function
  of the environment and the state;
* effects that the claims talk about (which files were fetched, which
  replies were posted) are made observable through an explicit `CycleLog`
  accumulator threaded exactly where the source performs the calls;
* `Record<string, string[]>` is modelled as an association list with
  unique keys (`recGet`/`recSet` match JavaScript property lookup and
  assignment for such records);
* the regex scan `/(?:docx?|wiki)\/([a-zA-Z0-9]+)/gi` is modelled by a
  fuel-indexed scanner over the character list; the fuel equal to the
  string length is always sufficient because every step of the loop
  consumes at least one character.  Case-insensitive matching is modelled
  for the ASCII range, which is the range the pattern's literals live in.

Control-flow notes used throughout (checked against the source):
inside `pollDocumentComments`, once `getFileComments` has resolved for a
file, none of the per-comment operations can throw (`replyToComment` and
`processCommentWithAgent` catch internally), so the per-file try/catch
fires exactly when the comments fetch itself fails; taking a fresh state
value per cycle models `loadState`/`saveState`, with the convention that
an early return leaves the persisted state equal to the input state.
Token acquisition (`getTenantAccessToken`) can only fail before any state
is read or written, so an auth failure is the identity on persisted state
and is not modelled further.
-/

/-- Plain text payload of a rich-text element (`{ text: string }`). -/
structure TextRunBody where
  text : String
deriving Repr, DecidableEq

/-- One element of a comment body: `{ type, text_run?: { text } }`. -/
structure ContentElement where
  type : String
  text_run : Option TextRunBody
deriving Repr, DecidableEq

/-- Structured rich-text body of a comment or reply. -/
structure CommentContent where
  elements : List ContentElement
deriving Repr, DecidableEq

/-- A reply under a comment, mirroring interface `FeishuReply`. -/
structure FeishuReply where
  reply_id : String
  user_id : String
  create_time : String
  content : CommentContent
deriving Repr, DecidableEq

/-- Wrapper object `{ replies: FeishuReply[] }` of `reply_list`. -/
structure ReplyList where
  replies : List FeishuReply
deriving Repr, DecidableEq

/-- A document comment, mirroring interface `FeishuComment`. -/
structure FeishuComment where
  comment_id : String
  create_time : String
  update_time : String
  is_solved : Bool
  solver_user_id : Option String
  reply_list : Option ReplyList
  content : CommentContent
  user_id : String
  quote : Option String
deriving Repr, DecidableEq

/-- Plugin configuration, mirroring interface `PluginConfig`. -/
structure PluginConfig where
  enabled : Bool
  pollIntervalMinutes : Nat
  indexDocument : Option String
  watchedFiles : List String
deriving Repr, DecidableEq

/-- Durable state, mirroring interface `ProcessedState`.  The record
`processedComments : Record<string, string[]>` is an association list
with unique keys. -/
structure ProcessedState where
  lastPollTime : Nat
  processedComments : List (String × List String)
deriving Repr, DecidableEq

/-- Hyperlink attached to a docx text run style (`{ url: string }`). -/
structure StyleLink where
  url : String
deriving Repr, DecidableEq

/-- Style of a docx text run (`{ link?: { url } }`). -/
structure TextElementStyle where
  link : Option StyleLink
deriving Repr, DecidableEq

/-- A docx block text run: its visible plain text plus an optional style
carrying an embedded hyperlink.  `extractDocLinks` reads only the link. -/
structure BlockTextRun where
  content : String
  text_element_style : Option TextElementStyle
deriving Repr, DecidableEq

/-- One element of a docx block content container (`{ text_run?: ... }`). -/
structure BlockElement where
  text_run : Option BlockTextRun
deriving Repr, DecidableEq

/-- A docx block content container (`{ elements?: [...] }`). -/
structure ElementContainer where
  elements : Option (List BlockElement)
deriving Repr, DecidableEq

/-- A docx block.  The source inspects these fifteen container fields. -/
structure Block where
  text : Option ElementContainer := none
  heading1 : Option ElementContainer := none
  heading2 : Option ElementContainer := none
  heading3 : Option ElementContainer := none
  heading4 : Option ElementContainer := none
  heading5 : Option ElementContainer := none
  heading6 : Option ElementContainer := none
  heading7 : Option ElementContainer := none
  heading8 : Option ElementContainer := none
  heading9 : Option ElementContainer := none
  bullet : Option ElementContainer := none
  ordered : Option ElementContainer := none
  page : Option ElementContainer := none
  callout : Option ElementContainer := none
  quote : Option ElementContainer := none
deriving Repr, DecidableEq

/-- Body of a successful comments-list HTTP response:
`response.data.data` may be absent, and so may its `items`. -/
structure CommentsData where
  items : Option (List FeishuComment)
deriving Repr, DecidableEq

/-- Envelope of the comments-list HTTP response (`response.data`). -/
structure CommentsApiResponse where
  code : Int
  data : Option CommentsData
deriving Repr, DecidableEq

/-- Body of a successful blocks-list HTTP response. -/
structure BlocksData where
  items : Option (List Block)
deriving Repr, DecidableEq

/-- Envelope of the blocks-list HTTP response (`response.data`). -/
structure BlocksApiResponse where
  code : Int
  data : Option BlocksData
deriving Repr, DecidableEq

/-- A call to `replyToComment` observed during a cycle: which file and
comment were addressed and with which reply text. -/
structure PostAttempt where
  fileToken : String
  commentId : String
  text : String
deriving Repr, DecidableEq

/-- Observable effects of a cycle: the file tokens whose comments were
fetched (in order) and the reply posts attempted (in order). -/
structure CycleLog where
  fetched : List String
  posts : List PostAttempt
deriving Repr, DecidableEq

/-- Log of a cycle that performed no external comment traffic. -/
def emptyLog : CycleLog := ⟨[], []⟩

/-- External collaborators of one poll cycle, as oracle functions:
the transport outcome of each HTTP call (a thrown/rejected call is
`Except.error ()`), the agent runtime keyed by the prompt it receives,
and the host builtin `decodeURIComponent` (total here; the claims below
never depend on its behaviour beyond being a function). -/
structure Env where
  fetchResult : String → Except Unit CommentsApiResponse
  postReplyResult : String → String → String → Except Unit Int
  blocksResult : String → Except Unit BlocksApiResponse
  invoke : String → Except Unit (Option String)
  decodeURIComponent : String → String

/-- JavaScript record lookup `m[k]` for a unique-key association list. -/
def recGet : List (String × List String) → String → Option (List String)
  | [], _ => none
  | (k', v') :: m, k => if k' == k then some v' else recGet m k

/-- JavaScript record assignment `m[k] = v` for a unique-key association
list: overwrite the existing entry in place, else append a new entry. -/
def recSet : List (String × List String) → String → List String → List (String × List String)
  | [], k, v => [(k, v)]
  | (k', v') :: m, k, v => if k' == k then (k, v) :: m else (k', v') :: recSet m k v

/-- Processed-comment identifiers recorded for one document, as read by
the source: `state.processedComments[fileToken] || []`. -/
def procSet (s : ProcessedState) (fileToken : String) : List String :=
  (recGet s.processedComments fileToken).getD []

/-- Translation of `extractTextFromContent`: keep the `textRun` elements
whose `text_run?.text` is truthy (present and nonempty) and join their
texts. -/
def extractTextFromContent (content : CommentContent) : String :=
  String.join
    ((content.elements.filter
        (fun el => el.type == "textRun" &&
          ((el.text_run.map (fun tr => tr.text != "")).getD false))).map
      (fun el => ((el.text_run.map (fun tr => tr.text)).getD "")))

/-- Translation of the body of `getFileComments` after the HTTP response
arrived: an API-level error code yields `[]`, otherwise
`response.data.data?.items || []`. -/
def getFileComments (resp : CommentsApiResponse) : List FeishuComment :=
  if resp.code != 0 then []
  else ((resp.data.bind (fun d => d.items)).getD [])

/-- Translation of `getDocumentContent`: a thrown transport error or an
API-level error code yields `null` (here `none`), otherwise
`response.data.data?.items || []`. -/
def getDocumentContent (env : Env) (fileToken : String) : Option (List Block) :=
  match env.blocksResult fileToken with
  | .error _ => none
  | .ok resp =>
    if resp.code != 0 then none
    else some ((resp.data.bind (fun d => d.items)).getD [])

/-- Character class `[a-zA-Z0-9]` of the link regex. -/
def isTokenChar (c : Char) : Bool :=
  ('a' ≤ c && c ≤ 'z') || ('A' ≤ c && c ≤ 'Z') || ('0' ≤ c && c ≤ '9')

/-- Match a literal keyword case-insensitively (the `i` flag restricted
to the ASCII letters the pattern contains), returning the remaining
characters. -/
def stripCI : List Char → List Char → Option (List Char)
  | [], cs => some cs
  | _ :: _, [] => none
  | p :: ps, c :: cs => if c.toLower == p then stripCI ps cs else none

/-- Match `\/([a-zA-Z0-9]+)` greedily at the head of the input, returning
the captured token and the remaining characters. -/
def matchSlashToken (cs : List Char) : Option (List Char × List Char) :=
  match cs with
  | '/' :: rest =>
    let tok := rest.takeWhile isTokenChar
    if tok.isEmpty then none else some (tok, rest.dropWhile isTokenChar)
  | _ => none

/-- Try one keyword alternative followed by `\/([a-zA-Z0-9]+)`. -/
def tryKeyword (kw : List Char) (cs : List Char) : Option (List Char × List Char) :=
  (stripCI kw cs).bind matchSlashToken

/-- Attempt the whole pattern `(?:docx?|wiki)\/([a-zA-Z0-9]+)` at the head
of the input, in the backtracking order of the regex engine: `docx`
first, then `doc` (the optional `x?` matching empty), then `wiki`. -/
def tryMatchAt (cs : List Char) : Option (List Char × List Char) :=
  match tryKeyword ['d', 'o', 'c', 'x'] cs with
  | some r => some r
  | none =>
    match tryKeyword ['d', 'o', 'c'] cs with
    | some r => some r
    | none => tryKeyword ['w', 'i', 'k', 'i'] cs

/-- One global-regex scan (`exec` in a loop): at each position try the
pattern; on a match emit the captured token and resume after the match,
otherwise advance one character.  The fuel bounds the number of steps;
`scanTokens` supplies fuel equal to the input length, which is always
sufficient because each step consumes at least one character. -/
def scanTokensFuel : Nat → List Char → List String
  | 0, _ => []
  | _ + 1, [] => []
  | fuel + 1, c :: cs =>
    match tryMatchAt (c :: cs) with
    | some (tok, rest) => String.mk tok :: scanTokensFuel fuel rest
    | none => scanTokensFuel fuel cs

/-- All captures of `/(?:docx?|wiki)\/([a-zA-Z0-9]+)/gi` over a string,
in match order. -/
def scanTokens (cs : List Char) : List String :=
  scanTokensFuel cs.length cs

/-- Translation of the inner `extractFromUrl` closure: decode the URL,
scan it for document tokens, and append each token not already collected
(`!docTokens.includes(token)`). -/
def extractFromUrl (decode : String → String) (acc : List String) (url : String) : List String :=
  (scanTokens (decode url).toList).foldl
    (fun a tok => if a.contains tok then a else a ++ [tok]) acc

/-- Hyperlink URL of one block element, exactly the access path
`element.text_run?.text_element_style?.link?.url` of the source. -/
def elementLinkUrl (e : BlockElement) : Option String :=
  ((e.text_run.bind (fun tr => tr.text_element_style)).bind
    (fun st => st.link)).map (fun l => l.url)

/-- Body of the element loop in `processElements`: when the element's
text run style carries a truthy link URL, extract tokens from that URL
(`const linkUrl = ...; if (linkUrl) extractFromUrl(linkUrl)`). -/
def processElement (decode : String → String) (a : List String) (e : BlockElement) : List String :=
  match elementLinkUrl e with
  | some u => if u == "" then a else extractFromUrl decode a u
  | none => a

/-- Translation of the inner `processElements` closure: visit each
element and, when its text run style carries a truthy link URL, extract
tokens from that URL. -/
def processElements (decode : String → String) (acc : List String)
    (elements : List BlockElement) : List String :=
  elements.foldl (processElement decode) acc

/-- The fifteen container fields of a block inspected by the source, in
source order. -/
def containersOf (b : Block) : List (Option ElementContainer) :=
  [b.text, b.heading1, b.heading2, b.heading3, b.heading4, b.heading5,
   b.heading6, b.heading7, b.heading8, b.heading9, b.bullet, b.ordered,
   b.page, b.callout, b.quote]

/-- Visit one optional container: `if (container?.elements)` then process
its elements. -/
def processContainer (decode : String → String) (acc : List String)
    (oc : Option ElementContainer) : List String :=
  match oc with
  | some c =>
    match c.elements with
    | some es => processElements decode acc es
    | none => acc
  | none => acc

/-- Translation of `extractDocLinks`: fold the element containers of each
block, collecting unique document tokens in first-seen order.
`decodeURIComponent` is passed in as `decode`. -/
def extractDocLinks (decode : String → String) (blocks : List Block) : List String :=
  blocks.foldl (fun acc b => (containersOf b).foldl (processContainer decode) acc) []

/-- Translation of `getWatchedFilesFromIndex`: an unreadable index yields
`[]`, otherwise the links extracted from its blocks. -/
def getWatchedFilesFromIndex (env : Env) (indexDocToken : String) : List String :=
  match getDocumentContent env indexDocToken with
  | none => []
  | some blocks => extractDocLinks env.decodeURIComponent blocks

/-- Translation of `replyToComment`: a thrown transport error or an
API-level error code is logged and surfaced as `false`; success is
`true`. -/
def replyToComment (env : Env) (fileToken commentId replyText : String) : Bool :=
  match env.postReplyResult fileToken commentId replyText with
  | .error _ => false
  | .ok code => code == 0

/-- Prompt built by `processCommentWithAgent`; a truthy quote selects the
quoted variant. -/
def buildPrompt (commentText : String) (quote : Option String) : String :=
  match quote with
  | some q =>
    if q == "" then
      "用户在飞书文档中发表了评论：" ++ commentText ++ "\n\n请回复这条评论。"
    else
      "用户在飞书文档中对以下内容划词评论：\n\n引用内容：「" ++ q ++ "」\n\n评论：" ++
        commentText ++ "\n\n请回复这条评论。"
  | none => "用户在飞书文档中发表了评论：" ++ commentText ++ "\n\n请回复这条评论。"

/-- Translation of `processCommentWithAgent`: a thrown invocation is
caught and mapped to one fixed apology; a resolved invocation whose
`response` field is missing or empty (falsy) is mapped by
`result.response || ...` to another fixed apology; otherwise the agent's
response is returned.  The function always returns a string. -/
def processCommentWithAgent (invoke : String → Except Unit (Option String))
    (commentText : String) (quote : Option String) : String :=
  let prompt := buildPrompt commentText quote
  match invoke prompt with
  | .error _ => "抱歉，处理评论时遇到了问题，请稍后再试。"
  | .ok response =>
    match response with
    | some s => if s == "" then "抱歉，我暂时无法处理这条评论。" else s
    | none => "抱歉，我暂时无法处理这条评论。"

/-- The self-reply check of the orchestrator:
`comment.reply_list?.replies?.some((r) => r.user_id === "bot")`.  The
compared identity is the literal placeholder `"bot"`; the in-source
comment notes it "needs to be the actual bot user id". -/
def hasBotReply (comment : FeishuComment) : Bool :=
  match comment.reply_list with
  | some rl => rl.replies.any (fun r => r.user_id == "bot")
  | none => false

/-- Reply text generated for a comment: the agent invocation applied to
the comment's extracted text and quote. -/
def genReply (env : Env) (comment : FeishuComment) : String :=
  processCommentWithAgent env.invoke (extractTextFromContent comment.content) comment.quote

/-- One iteration of the per-comment loop of `pollDocumentComments`,
acting on the accumulated `processedIds` and the cycle log: skip an
already-processed comment; record a solved comment; record a comment that
already carries the bot's reply; otherwise generate a reply, attempt to
post it (observed in the log), and record the comment only on success. -/
def handleComment (env : Env) (fileToken : String)
    (acc : List String × CycleLog) (comment : FeishuComment) : List String × CycleLog :=
  let (processedIds, log) := acc
  if processedIds.contains comment.comment_id then acc
  else if comment.is_solved then (processedIds ++ [comment.comment_id], log)
  else if hasBotReply comment then (processedIds ++ [comment.comment_id], log)
  else
    let response := genReply env comment
    let success := replyToComment env fileToken comment.comment_id response
    let log' := { log with posts := log.posts ++ [⟨fileToken, comment.comment_id, response⟩] }
    if success then (processedIds ++ [comment.comment_id], log') else (processedIds, log')

/-- One iteration of the per-file loop of `pollDocumentComments`.  The
comments fetch is the only operation in the loop body that can throw; the
surrounding try/catch turns that failure into a no-op on the state (the
assignment `state.processedComments[fileToken] = processedIds` is then
never reached). -/
def pollFile (env : Env) (acc : ProcessedState × CycleLog) (fileToken : String) :
    ProcessedState × CycleLog :=
  let (state, log) := acc
  let log := { log with fetched := log.fetched ++ [fileToken] }
  match env.fetchResult fileToken with
  | .error _ => (state, log)
  | .ok resp =>
    let comments := getFileComments resp
    let processedIds := (recGet state.processedComments fileToken).getD []
    let (processedIds', log') := comments.foldl (handleComment env fileToken) (processedIds, log)
    ({ state with processedComments := recSet state.processedComments fileToken processedIds' },
     log')

/-- Watched-file resolution of `pollDocumentComments`: a truthy
`indexDocument` is read and its links extracted; if that yields an empty
list the explicit `watchedFiles` list is the fallback (when itself
nonempty). -/
def resolveWatchedFiles (env : Env) (config : PluginConfig) : List String :=
  let watched :=
    match config.indexDocument with
    | some idx => if idx == "" then [] else getWatchedFilesFromIndex env idx
    | none => []
  if watched.length == 0 && config.watchedFiles.length > 0 then config.watchedFiles
  else watched

/-- Translation of `pollDocumentComments` as a function from the loaded
state to the persisted state and the cycle's observable effects.  A
disabled plugin or an empty watched list returns before `saveState`, so
the persisted state is the input state and the log is empty; otherwise
the per-file loop runs, `lastPollTime` is set to the current time `now`,
and the result is persisted. -/
def pollDocumentComments (env : Env) (config : PluginConfig) (now : Nat)
    (state : ProcessedState) : ProcessedState × CycleLog :=
  if !config.enabled then (state, emptyLog)
  else
    let watchedFiles := resolveWatchedFiles env config
    if watchedFiles.length == 0 then (state, emptyLog)
    else
      let (state', log) := watchedFiles.foldl (pollFile env) (state, emptyLog)
      ({ state' with lastPollTime := now }, log)

/-- Style-link URL of an element after the truthiness check of the
source (`if (linkUrl)`): `none` when no link style is attached or the
URL is the empty string.  Used to state that extraction reads nothing
else of an element. -/
def truthyLinkUrl (e : BlockElement) : Option String :=
  match elementLinkUrl e with
  | some u => if u == "" then none else some u
  | none => none

/-- The truthy style-link URLs of one optional container, in element
order. -/
def containerUrls (oc : Option ElementContainer) : List String :=
  match oc with
  | some c =>
    match c.elements with
    | some es => es.filterMap truthyLinkUrl
    | none => []
  | none => []

/-- The truthy style-link URLs of one block, container by container. -/
def blockUrls (b : Block) : List String :=
  ((containersOf b).map containerUrls).flatten

/-- Every truthy style-link URL of a block list, in traversal order:
the only data of a block list that `extractDocLinks` inspects. -/
def urlsOfBlocks (blocks : List Block) : List String :=
  (blocks.map blockUrls).flatten

/-- Scenario predicate of claim C5: every comment the service returns
for a watched file is already recorded as processed for that file. -/
def noNewComments (env : Env) (s : ProcessedState) (files : List String) : Prop :=
  ∀ ft ∈ files, ∀ resp, env.fetchResult ft = .ok resp →
    ∀ c ∈ getFileComments resp, c.comment_id ∈ procSet s ft

/-- Environment in which every HTTP call fails at the transport level
and the agent answers a fixed string; used for concrete instances. -/
def witnessEnv : Env :=
  { fetchResult := fun _ => .error ()
    postReplyResult := fun _ _ _ => .ok 0
    blocksResult := fun _ => .error ()
    invoke := fun _ => .ok (some "好的")
    decodeURIComponent := id }

/-- A solved comment with no prior record; used for concrete instances. -/
def solvedComment : FeishuComment :=
  { comment_id := "s1"
    create_time := "1"
    update_time := "1"
    is_solved := true
    solver_user_id := some "u9"
    reply_list := none
    content := ⟨[⟨"textRun", some ⟨"问题已经解决"⟩⟩]⟩
    user_id := "u1"
    quote := none }

/-- A reply posted earlier by the application under its real bot
identity (an open-id, not the placeholder string compared by the code). -/
def c4AgentReply : FeishuReply :=
  { reply_id := "r1"
    user_id := "ou_3abc"
    create_time := "2"
    content := ⟨[⟨"textRun", some ⟨"这是机器人早先的自动回复"⟩⟩]⟩ }

/-- An unsolved, unrecorded comment that already carries the agent's own
reply authored under the real bot identity `"ou_3abc"`. -/
def c4Comment : FeishuComment :=
  { comment_id := "c77"
    create_time := "1"
    update_time := "1"
    is_solved := false
    solver_user_id := none
    reply_list := some ⟨[c4AgentReply]⟩
    content := ⟨[⟨"textRun", some ⟨"请问这里怎么配置"⟩⟩]⟩
    user_id := "u1"
    quote := none }

/-- Environment whose agent and reply-posting calls succeed; used for
the C4 divergence instance. -/
def c4Env : Env :=
  { fetchResult := fun _ => .error ()
    postReplyResult := fun _ _ _ => .ok 0
    blocksResult := fun _ => .error ()
    invoke := fun _ => .ok (some "自动回复内容")
    decodeURIComponent := id }

/-- A comment that is already recorded as processed in `c5State`. -/
def c5Comment : FeishuComment :=
  { comment_id := "old1"
    create_time := "1"
    update_time := "1"
    is_solved := false
    solver_user_id := none
    reply_list := none
    content := ⟨[⟨"textRun", some ⟨"早先的评论"⟩⟩]⟩
    user_id := "u1"
    quote := none }

/-- Environment for the C5 scenario: every fetch returns the one
already-processed comment. -/
def c5Env : Env :=
  { fetchResult := fun _ => .ok ⟨0, some ⟨some [c5Comment]⟩⟩
    postReplyResult := fun _ _ _ => .ok 0
    blocksResult := fun _ => .error ()
    invoke := fun _ => .ok (some "回复")
    decodeURIComponent := id }

/-- Configuration watching the single document `"docA"`. -/
def c5Config : PluginConfig :=
  { enabled := true
    pollIntervalMinutes := 15
    indexDocument := none
    watchedFiles := ["docA"] }

/-- State in which `"docA"` already records comment `"old1"`. -/
def c5State : ProcessedState :=
  { lastPollTime := 0
    processedComments := [("docA", ["old1"])] }

/-- A new, unsolved, unreplied comment; used for the C2 instance. -/
def c2Comment : FeishuComment :=
  { comment_id := "n1"
    create_time := "3"
    update_time := "3"
    is_solved := false
    solver_user_id := none
    reply_list := none
    content := ⟨[⟨"textRun", some ⟨"新评论"⟩⟩]⟩
    user_id := "u2"
    quote := none }

/-- Environment for the C2 instance: fetching yields the new comment and
posting succeeds. -/
def c2Env : Env :=
  { fetchResult := fun _ => .ok ⟨0, some ⟨some [c2Comment]⟩⟩
    postReplyResult := fun _ _ _ => .ok 0
    blocksResult := fun _ => .error ()
    invoke := fun _ => .ok (some "答复")
    decodeURIComponent := id }

/-- Configuration watching the single document `"docB"`. -/
def c2Config : PluginConfig :=
  { enabled := true
    pollIntervalMinutes := 15
    indexDocument := none
    watchedFiles := ["docB"] }

/-- Empty processed state. -/
def c2State : ProcessedState :=
  { lastPollTime := 0
    processedComments := [] }

/-- Configuration with an index document and no explicit watched files;
used for the C7 instance. -/
def c7Config : PluginConfig :=
  { enabled := true
    pollIntervalMinutes := 15
    indexDocument := some "idx"
    watchedFiles := [] }

/-- A block element whose text run carries an embedded hyperlink. -/
def c8LinkElement (url : String) : BlockElement :=
  { text_run := some { content := "链接", text_element_style := some { link := some { url := url } } } }

/-- A heading block carrying an embedded docx link. -/
def c8HeadingBlock : Block :=
  { heading1 := some { elements := some [c8LinkElement "https://x.feishu.cn/docx/ABC123"] } }

/-- A bullet block carrying an embedded wiki link. -/
def c8BulletBlock : Block :=
  { bullet := some { elements := some [c8LinkElement "https://x.feishu.cn/wiki/XYZ789"] } }

/-- A block element whose visible text is a document URL but whose text
run has no link style attached. -/
def c10PlainTextElement : BlockElement :=
  { text_run := some { content := "https://x.feishu.cn/docx/PLAINTXT", text_element_style := none } }

/-- A text block whose only element holds a document URL as plain text. -/
def c10PlainTextBlock : Block :=
  { text := some { elements := some [c10PlainTextElement] } }

theorem handleComment_skip (env : Env) (ft : String) (ids : List String) (log : CycleLog)
    (c : FeishuComment) (h : c.comment_id ∈ ids) :
    handleComment env ft (ids, log) c = (ids, log) := by
  simp [handleComment, h]

theorem handleComment_fst_cases (env : Env) (ft : String) (ids : List String) (log : CycleLog)
    (c : FeishuComment) :
    (handleComment env ft (ids, log) c).1 = ids ∨
      ((handleComment env ft (ids, log) c).1 = ids ++ [c.comment_id] ∧
        c.comment_id ∉ ids) := by
  by_cases h1 : c.comment_id ∈ ids
  · simp [handleComment, h1]
  · by_cases h2 : c.is_solved
    · simp [handleComment, h1, h2]
    · by_cases h3 : hasBotReply c
      · simp [handleComment, h1, h2, h3]
      · by_cases h4 : replyToComment env ft c.comment_id (genReply env c)
        · simp [handleComment, h1, h2, h3, h4]
        · simp [handleComment, h1, h2, h3, h4]

theorem handleComment_solved (env : Env) (ft : String) (ids : List String) (log : CycleLog)
    (c : FeishuComment) (h1 : c.comment_id ∉ ids) (h2 : c.is_solved = true) :
    handleComment env ft (ids, log) c = (ids ++ [c.comment_id], log) := by
  simp [handleComment, h1, h2]

theorem handleComment_botReply (env : Env) (ft : String) (ids : List String) (log : CycleLog)
    (c : FeishuComment) (h1 : c.comment_id ∉ ids) (h2 : c.is_solved = false)
    (h3 : hasBotReply c = true) :
    handleComment env ft (ids, log) c = (ids ++ [c.comment_id], log) := by
  simp [handleComment, h1, h2, h3]

theorem handleComment_new (env : Env) (ft : String) (ids : List String) (log : CycleLog)
    (c : FeishuComment) (h1 : c.comment_id ∉ ids) (h2 : c.is_solved = false)
    (h3 : hasBotReply c = false) :
    handleComment env ft (ids, log) c =
      (if replyToComment env ft c.comment_id (genReply env c) then ids ++ [c.comment_id] else ids,
        { log with posts := log.posts ++ [⟨ft, c.comment_id, genReply env c⟩] }) := by
  by_cases h4 : replyToComment env ft c.comment_id (genReply env c)
  · simp [handleComment, h1, h2, h3, h4]
  · simp [handleComment, h1, h2, h3, h4]

theorem handleComment_fetched (env : Env) (ft : String) (ids : List String) (log : CycleLog)
    (c : FeishuComment) :
    (handleComment env ft (ids, log) c).2.fetched = log.fetched := by
  by_cases h1 : c.comment_id ∈ ids
  · simp [handleComment, h1]
  · by_cases h2 : c.is_solved
    · simp [handleComment, h1, h2]
    · by_cases h3 : hasBotReply c
      · simp [handleComment, h1, h2, h3]
      · by_cases h4 : replyToComment env ft c.comment_id (genReply env c)
        · simp [handleComment, h1, h2, h3, h4]
        · simp [handleComment, h1, h2, h3, h4]

theorem foldl_handleComment_mem (env : Env) (ft : String) (cs : List FeishuComment) :
    ∀ (ids : List String) (log : CycleLog) (x : String), x ∈ ids →
      x ∈ (List.foldl (handleComment env ft) (ids, log) cs).1 := by
  induction cs with
  | nil => intro ids log x hx; exact hx
  | cons c cs ih =>
    intro ids log x hx
    rw [List.foldl_cons,
      show handleComment env ft (ids, log) c =
        ((handleComment env ft (ids, log) c).1, (handleComment env ft (ids, log) c).2) from rfl]
    apply ih
    rcases handleComment_fst_cases env ft ids log c with h | ⟨h, _⟩
    · rw [h]; exact hx
    · rw [h]; exact List.mem_append_left _ hx

theorem foldl_handleComment_mem_src (env : Env) (ft : String) (cs : List FeishuComment) :
    ∀ (ids : List String) (log : CycleLog) (x : String),
      x ∈ (List.foldl (handleComment env ft) (ids, log) cs).1 →
      x ∈ ids ∨ x ∈ cs.map (fun c => c.comment_id) := by
  induction cs with
  | nil => intro ids log x hx; exact Or.inl hx
  | cons c cs ih =>
    intro ids log x hx
    rw [List.foldl_cons,
      show handleComment env ft (ids, log) c =
        ((handleComment env ft (ids, log) c).1, (handleComment env ft (ids, log) c).2) from rfl] at hx
    rcases ih _ _ _ hx with h | h
    · rcases handleComment_fst_cases env ft ids log c with hc | ⟨hc, _⟩
      · rw [hc] at h; exact Or.inl h
      · rw [hc] at h
        rcases List.mem_append.mp h with h' | h'
        · exact Or.inl h'
        · right; rw [List.mem_singleton.mp h']; simp
    · right; simp [h]

theorem foldl_handleComment_nodup (env : Env) (ft : String) (cs : List FeishuComment) :
    ∀ (ids : List String) (log : CycleLog), ids.Nodup →
      (List.foldl (handleComment env ft) (ids, log) cs).1.Nodup := by
  induction cs with
  | nil => intro ids log h; exact h
  | cons c cs ih =>
    intro ids log h
    rw [List.foldl_cons,
      show handleComment env ft (ids, log) c =
        ((handleComment env ft (ids, log) c).1, (handleComment env ft (ids, log) c).2) from rfl]
    apply ih
    rcases handleComment_fst_cases env ft ids log c with hc | ⟨hc, hm⟩
    · rw [hc]; exact h
    · rw [hc]
      simp [List.nodup_append, h, hm]

theorem foldl_handleComment_skip_all (env : Env) (ft : String) (cs : List FeishuComment) :
    ∀ (ids : List String) (log : CycleLog), (∀ c ∈ cs, c.comment_id ∈ ids) →
      List.foldl (handleComment env ft) (ids, log) cs = (ids, log) := by
  induction cs with
  | nil => intro ids log _; rfl
  | cons c cs ih =>
    intro ids log h
    rw [List.foldl_cons, handleComment_skip env ft ids log c (h c (List.mem_cons_self c cs))]
    exact ih ids log (fun d hd => h d (List.mem_cons_of_mem c hd))

theorem foldl_handleComment_unhandled_iff (env : Env) (ft : String) (cs : List FeishuComment) :
    ∀ (ids : List String) (log : CycleLog) (c : FeishuComment),
      (cs.map (fun d => d.comment_id)).Nodup → c ∈ cs → c.comment_id ∉ ids →
      c.is_solved = false → hasBotReply c = false →
      (c.comment_id ∈ (List.foldl (handleComment env ft) (ids, log) cs).1 ↔
        replyToComment env ft c.comment_id (genReply env c) = true) := by
  induction cs with
  | nil => intro ids log c _ hc; exact absurd hc (List.not_mem_nil c)
  | cons d cs ih =>
    intro ids log c hnd hc hni hsol hbot
    rcases List.mem_cons.mp hc with rfl | hmem
    · rw [List.foldl_cons, handleComment_new env ft ids log c hni hsol hbot]
      by_cases hs : replyToComment env ft c.comment_id (genReply env c)
      · rw [if_pos hs]
        constructor
        · intro _; exact hs
        · intro _
          exact foldl_handleComment_mem env ft cs _ _ _ (List.mem_append_right _ (List.mem_singleton_self _))
      · rw [if_neg hs]
        constructor
        · intro hx
          rcases foldl_handleComment_mem_src env ft cs _ _ _ hx with h | h
          · exact absurd h hni
          · exact absurd h (by simpa using (List.nodup_cons.mp hnd).1)
        · intro hx; exact absurd hx hs
    · have hne : c.comment_id ≠ d.comment_id := by
        intro he
        have : c.comment_id ∈ cs.map (fun d => d.comment_id) :=
          List.mem_map.mpr ⟨c, hmem, rfl⟩
        rw [he] at this
        exact (List.nodup_cons.mp hnd).1 this
      rw [List.foldl_cons,
        show handleComment env ft (ids, log) d =
          ((handleComment env ft (ids, log) d).1, (handleComment env ft (ids, log) d).2) from rfl]
      apply ih _ _ _ (List.nodup_cons.mp hnd).2 hmem _ hsol hbot
      rcases handleComment_fst_cases env ft ids log d with hcs | ⟨hcs, _⟩
      · rw [hcs]; exact hni
      · rw [hcs]
        intro hx
        rcases List.mem_append.mp hx with h | h
        · exact hni h
        · exact hne (List.mem_singleton.mp h)

theorem recGet_recSet_self (m : List (String × List String)) (k : String) (v : List String) :
    recGet (recSet m k v) k = some v := by
  induction m with
  | nil => simp [recGet, recSet]
  | cons p m ih =>
    by_cases h : p.1 == k
    · simp [recGet, recSet, h]
    · simpa [recGet, recSet, h] using ih

theorem recGet_recSet_ne (m : List (String × List String)) (k k' : String) (v : List String)
    (h : k' ≠ k) : recGet (recSet m k v) k' = recGet m k' := by
  have hkk : ¬(k == k') := by
    simp only [beq_iff_eq]
    exact fun he => h he.symm
  induction m with
  | nil => simp [recGet, recSet, hkk]
  | cons p m ih =>
    obtain ⟨k₀, v₀⟩ := p
    by_cases hk : k₀ = k
    · subst hk
      simp [recGet, recSet, hkk]
    · have h2 : ¬(k₀ == k) := by simp [hk]
      by_cases hk' : k₀ = k'
      · subst hk'
        simp [recGet, recSet, h2]
      · have h3 : ¬(k₀ == k') := by simp [hk']
        simp [recGet, recSet, h2, h3, ih]

theorem pollFile_error (env : Env) (s : ProcessedState) (log : CycleLog) (ft : String)
    (h : env.fetchResult ft = .error ()) :
    pollFile env (s, log) ft = (s, { log with fetched := log.fetched ++ [ft] }) := by
  simp [pollFile, h]

theorem pollFile_ok (env : Env) (s : ProcessedState) (log : CycleLog) (ft : String)
    (resp : CommentsApiResponse) (h : env.fetchResult ft = .ok resp) :
    pollFile env (s, log) ft =
      ({ s with processedComments := recSet s.processedComments ft (List.foldl (handleComment env ft) (procSet s ft, { log with fetched := log.fetched ++ [ft] }) (getFileComments resp)).1 },
        (List.foldl (handleComment env ft) (procSet s ft, { log with fetched := log.fetched ++ [ft] }) (getFileComments resp)).2) := by
  simp [pollFile, procSet, h]

theorem pollFile_procSet_mono (env : Env) (s : ProcessedState) (log : CycleLog) (ft k : String)
    (x : String) (hx : x ∈ procSet s k) : x ∈ procSet (pollFile env (s, log) ft).1 k := by
  cases hfetch : env.fetchResult ft with
  | error u =>
    cases u
    rw [pollFile_error env s log ft hfetch]
    exact hx
  | ok resp =>
    rw [pollFile_ok env s log ft resp hfetch]
    by_cases hk : k = ft
    · subst hk
      simp only [procSet, recGet_recSet_self]
      exact foldl_handleComment_mem env k (getFileComments resp) _ _ _ hx
    · simpa only [procSet, recGet_recSet_ne _ _ _ _ hk] using hx

theorem pollFile_procSet_nodup (env : Env) (s : ProcessedState) (log : CycleLog) (ft k : String)
    (hx : (procSet s k).Nodup) : (procSet (pollFile env (s, log) ft).1 k).Nodup := by
  cases hfetch : env.fetchResult ft with
  | error u =>
    cases u
    rw [pollFile_error env s log ft hfetch]
    exact hx
  | ok resp =>
    rw [pollFile_ok env s log ft resp hfetch]
    by_cases hk : k = ft
    · subst hk
      simp only [procSet, recGet_recSet_self]
      exact foldl_handleComment_nodup env k (getFileComments resp) _ _ hx
    · simpa only [procSet, recGet_recSet_ne _ _ _ _ hk] using hx

theorem pollFile_procSet_ne (env : Env) (s : ProcessedState) (log : CycleLog) (ft k : String)
    (hk : k ≠ ft) : procSet (pollFile env (s, log) ft).1 k = procSet s k := by
  cases hfetch : env.fetchResult ft with
  | error u =>
    cases u
    rw [pollFile_error env s log ft hfetch]
  | ok resp =>
    rw [pollFile_ok env s log ft resp hfetch]
    simp only [procSet, recGet_recSet_ne _ _ _ _ hk]

theorem foldl_pollFile_procSet_mono (env : Env) (l : List String) :
    ∀ (s : ProcessedState) (log : CycleLog) (k x : String), x ∈ procSet s k →
      x ∈ procSet (List.foldl (pollFile env) (s, log) l).1 k := by
  induction l with
  | nil => intro s log k x hx; exact hx
  | cons ft l ih =>
    intro s log k x hx
    rw [List.foldl_cons,
      show pollFile env (s, log) ft =
        ((pollFile env (s, log) ft).1, (pollFile env (s, log) ft).2) from rfl]
    exact ih _ _ _ _ (pollFile_procSet_mono env s log ft k x hx)

theorem foldl_pollFile_procSet_nodup (env : Env) (l : List String) :
    ∀ (s : ProcessedState) (log : CycleLog) (k : String), (procSet s k).Nodup →
      (procSet (List.foldl (pollFile env) (s, log) l).1 k).Nodup := by
  induction l with
  | nil => intro s log k hx; exact hx
  | cons ft l ih =>
    intro s log k hx
    rw [List.foldl_cons,
      show pollFile env (s, log) ft =
        ((pollFile env (s, log) ft).1, (pollFile env (s, log) ft).2) from rfl]
    exact ih _ _ _ (pollFile_procSet_nodup env s log ft k hx)

theorem foldl_pollFile_procSet_notmem (env : Env) (l : List String) :
    ∀ (s : ProcessedState) (log : CycleLog) (k : String), k ∉ l →
      procSet (List.foldl (pollFile env) (s, log) l).1 k = procSet s k := by
  induction l with
  | nil => intro s log k _; rfl
  | cons ft l ih =>
    intro s log k hk
    rw [List.foldl_cons,
      show pollFile env (s, log) ft =
        ((pollFile env (s, log) ft).1, (pollFile env (s, log) ft).2) from rfl]
    rw [ih _ _ _ (fun h => hk (List.mem_cons_of_mem ft h))]
    exact pollFile_procSet_ne env s log ft k (fun h => hk (h ▸ List.mem_cons_self ft l))

theorem handleComment_posts_congr (env : Env) (ft : String) (ids : List String)
    (log₁ log₂ : CycleLog) (c : FeishuComment) (h : log₁.posts = log₂.posts) :
    (handleComment env ft (ids, log₁) c).1 = (handleComment env ft (ids, log₂) c).1 ∧
      (handleComment env ft (ids, log₁) c).2.posts = (handleComment env ft (ids, log₂) c).2.posts := by
  by_cases h1 : c.comment_id ∈ ids
  · simp [handleComment, h1, h]
  · by_cases h2 : c.is_solved
    · simp [handleComment, h1, h2, h]
    · by_cases h3 : hasBotReply c
      · simp [handleComment, h1, h2, h3, h]
      · by_cases h4 : replyToComment env ft c.comment_id (genReply env c)
        · simp [handleComment, h1, h2, h3, h4, h]
        · simp [handleComment, h1, h2, h3, h4, h]

theorem foldl_handleComment_posts_congr (env : Env) (ft : String) (cs : List FeishuComment) :
    ∀ (ids : List String) (log₁ log₂ : CycleLog), log₁.posts = log₂.posts →
      (List.foldl (handleComment env ft) (ids, log₁) cs).1 =
        (List.foldl (handleComment env ft) (ids, log₂) cs).1 ∧
      (List.foldl (handleComment env ft) (ids, log₁) cs).2.posts =
        (List.foldl (handleComment env ft) (ids, log₂) cs).2.posts := by
  induction cs with
  | nil => intro ids log₁ log₂ h; exact ⟨rfl, h⟩
  | cons c cs ih =>
    intro ids log₁ log₂ h
    obtain ⟨he, hp⟩ := handleComment_posts_congr env ft ids log₁ log₂ c h
    rw [List.foldl_cons, List.foldl_cons,
      show handleComment env ft (ids, log₁) c =
        ((handleComment env ft (ids, log₁) c).1, (handleComment env ft (ids, log₁) c).2) from rfl,
      show handleComment env ft (ids, log₂) c =
        ((handleComment env ft (ids, log₂) c).1, (handleComment env ft (ids, log₂) c).2) from rfl,
      he]
    exact ih _ _ _ hp

theorem pollFile_posts_congr (env : Env) (s : ProcessedState) (log₁ log₂ : CycleLog)
    (ft : String) (h : log₁.posts = log₂.posts) :
    (pollFile env (s, log₁) ft).1 = (pollFile env (s, log₂) ft).1 ∧
      (pollFile env (s, log₁) ft).2.posts = (pollFile env (s, log₂) ft).2.posts := by
  cases hfetch : env.fetchResult ft with
  | error u =>
    cases u
    rw [pollFile_error env s log₁ ft hfetch, pollFile_error env s log₂ ft hfetch]
    exact ⟨rfl, h⟩
  | ok resp =>
    rw [pollFile_ok env s log₁ ft resp hfetch, pollFile_ok env s log₂ ft resp hfetch]
    obtain ⟨he, hp⟩ := foldl_handleComment_posts_congr env ft (getFileComments resp)
      (procSet s ft)
      { log₁ with fetched := log₁.fetched ++ [ft] }
      { log₂ with fetched := log₂.fetched ++ [ft] } h
    exact ⟨by rw [he], hp⟩

theorem foldl_pollFile_posts_congr (env : Env) (l : List String) :
    ∀ (s : ProcessedState) (log₁ log₂ : CycleLog), log₁.posts = log₂.posts →
      (List.foldl (pollFile env) (s, log₁) l).1 = (List.foldl (pollFile env) (s, log₂) l).1 ∧
      (List.foldl (pollFile env) (s, log₁) l).2.posts =
        (List.foldl (pollFile env) (s, log₂) l).2.posts := by
  induction l with
  | nil => intro s log₁ log₂ h; exact ⟨rfl, h⟩
  | cons ft l ih =>
    intro s log₁ log₂ h
    obtain ⟨he, hp⟩ := pollFile_posts_congr env s log₁ log₂ ft h
    rw [List.foldl_cons, List.foldl_cons,
      show pollFile env (s, log₁) ft =
        ((pollFile env (s, log₁) ft).1, (pollFile env (s, log₁) ft).2) from rfl,
      show pollFile env (s, log₂) ft =
        ((pollFile env (s, log₂) ft).1, (pollFile env (s, log₂) ft).2) from rfl,
      he]
    exact ih _ _ _ hp

theorem pollFile_noNew (env : Env) (s : ProcessedState) (log : CycleLog) (ft : String)
    (h : ∀ resp, env.fetchResult ft = .ok resp →
      ∀ c ∈ getFileComments resp, c.comment_id ∈ procSet s ft) :
    (pollFile env (s, log) ft).2.posts = log.posts ∧
      ∀ k, procSet (pollFile env (s, log) ft).1 k = procSet s k := by
  cases hfetch : env.fetchResult ft with
  | error u =>
    cases u
    rw [pollFile_error env s log ft hfetch]
    exact ⟨rfl, fun k => rfl⟩
  | ok resp =>
    rw [pollFile_ok env s log ft resp hfetch]
    rw [foldl_handleComment_skip_all env ft (getFileComments resp) (procSet s ft)
      { log with fetched := log.fetched ++ [ft] } (h resp hfetch)]
    refine ⟨rfl, fun k => ?_⟩
    by_cases hk : k = ft
    · subst hk
      simp only [procSet, recGet_recSet_self, Option.getD_some]
    · simp only [procSet, recGet_recSet_ne _ _ _ _ hk]

theorem foldl_pollFile_noNew (env : Env) (s₀ : ProcessedState) (l : List String)
    (h : ∀ ft ∈ l, ∀ resp, env.fetchResult ft = .ok resp →
      ∀ c ∈ getFileComments resp, c.comment_id ∈ procSet s₀ ft) :
    ∀ (s : ProcessedState) (log : CycleLog), (∀ k, procSet s k = procSet s₀ k) →
      (List.foldl (pollFile env) (s, log) l).2.posts = log.posts ∧
      ∀ k, procSet (List.foldl (pollFile env) (s, log) l).1 k = procSet s₀ k := by
  induction l with
  | nil => intro s log hs; exact ⟨rfl, hs⟩
  | cons ft l ih =>
    intro s log hs
    have hstep := pollFile_noNew env s log ft (fun resp hr c hc => by
      rw [hs ft]
      exact h ft (List.mem_cons_self ft l) resp hr c hc)
    rw [List.foldl_cons,
      show pollFile env (s, log) ft =
        ((pollFile env (s, log) ft).1, (pollFile env (s, log) ft).2) from rfl]
    have hrec := ih (fun ft' hft' => h ft' (List.mem_cons_of_mem ft hft'))
      (pollFile env (s, log) ft).1 (pollFile env (s, log) ft).2
      (fun k => by rw [hstep.2 k, hs k])
    exact ⟨by rw [hrec.1, hstep.1], hrec.2⟩

theorem cycle_noNew (env : Env) (config : PluginConfig) (now : Nat) (s : ProcessedState)
    (h : noNewComments env s (resolveWatchedFiles env config)) :
    (pollDocumentComments env config now s).2.posts = [] ∧
      ∀ k, procSet (pollDocumentComments env config now s).1 k = procSet s k := by
  simp only [pollDocumentComments]
  by_cases hen : config.enabled
  · rw [if_neg (by simp [hen])]
    by_cases hw : (resolveWatchedFiles env config).length == 0
    · rw [if_pos hw]
      exact ⟨rfl, fun k => rfl⟩
    · rw [if_neg hw]
      have hfold := foldl_pollFile_noNew env s (resolveWatchedFiles env config) h s emptyLog
        (fun k => rfl)
      exact ⟨hfold.1, fun k => hfold.2 k⟩
  · rw [if_pos (by simp [hen])]
    exact ⟨rfl, fun k => rfl⟩

theorem hasBotReply_iff (c : FeishuComment) :
    hasBotReply c = true ↔
      ∃ rl, c.reply_list = some rl ∧ ∃ r ∈ rl.replies, r.user_id = "bot" := by
  cases hrl : c.reply_list with
  | none => simp [hasBotReply, hrl]
  | some rl => simp [hasBotReply, hrl, List.any_eq_true]

theorem pollDocumentComments_procSet (env : Env) (config : PluginConfig) (now : Nat)
    (s : ProcessedState) (hen : config.enabled = true)
    (hlen : (resolveWatchedFiles env config).length ≠ 0) (k : String) :
    procSet (pollDocumentComments env config now s).1 k =
      procSet (List.foldl (pollFile env) (s, emptyLog) (resolveWatchedFiles env config)).1 k := by
  simp only [pollDocumentComments]
  rw [if_neg (by simp [hen]), if_neg (by simpa using hlen)]
  rfl

theorem pollDocumentComments_posts (env : Env) (config : PluginConfig) (now : Nat)
    (s : ProcessedState) (hen : config.enabled = true)
    (hlen : (resolveWatchedFiles env config).length ≠ 0) :
    (pollDocumentComments env config now s).2 =
      (List.foldl (pollFile env) (s, emptyLog) (resolveWatchedFiles env config)).2 := by
  simp only [pollDocumentComments]
  rw [if_neg (by simp [hen]), if_neg (by simpa using hlen)]

theorem foldl_preserve {α : Type} {β : Type} (P : β → Prop) (f : β → α → β)
    (hf : ∀ b a, P b → P (f b a)) : ∀ (l : List α) (b : β), P b → P (List.foldl f b l) := by
  intro l
  induction l with
  | nil => intro b h; exact h
  | cons a l ih =>
    intro b h
    rw [List.foldl_cons]
    exact ih _ (hf b a h)

theorem processElement_urls (decode : String → String) (a : List String) (e : BlockElement) :
    processElement decode a e =
      match truthyLinkUrl e with
      | some u => extractFromUrl decode a u
      | none => a := by
  cases he : elementLinkUrl e with
  | none => simp [processElement, truthyLinkUrl, he]
  | some u =>
    by_cases hu : u = ""
    · simp [processElement, truthyLinkUrl, he, hu]
    · simp [processElement, truthyLinkUrl, he, hu]

theorem processElements_eq_urls (decode : String → String) (es : List BlockElement) :
    ∀ acc, processElements decode acc es =
      List.foldl (extractFromUrl decode) acc (es.filterMap truthyLinkUrl) := by
  induction es with
  | nil => intro acc; rfl
  | cons e es ih =>
    intro acc
    rw [show processElements decode acc (e :: es) =
      processElements decode (processElement decode acc e) es from rfl]
    rw [List.filterMap_cons]
    have hp := processElement_urls decode acc e
    cases ht : truthyLinkUrl e with
    | none =>
      rw [ht] at hp
      rw [hp, ih]
    | some u =>
      rw [ht] at hp
      rw [hp, ih, List.foldl_cons]

theorem processContainer_eq_urls (decode : String → String) (oc : Option ElementContainer) :
    ∀ acc, processContainer decode acc oc =
      List.foldl (extractFromUrl decode) acc (containerUrls oc) := by
  cases oc with
  | none => intro acc; rfl
  | some c =>
    cases hc : c.elements with
    | none => intro acc; simp [processContainer, containerUrls, hc]
    | some es =>
      intro acc
      simp only [processContainer, containerUrls, hc]
      exact processElements_eq_urls decode es acc

theorem foldl_processContainer_eq (decode : String → String)
    (ocs : List (Option ElementContainer)) :
    ∀ acc, List.foldl (processContainer decode) acc ocs =
      List.foldl (extractFromUrl decode) acc ((ocs.map containerUrls).flatten) := by
  induction ocs with
  | nil => intro acc; rfl
  | cons oc ocs ih =>
    intro acc
    rw [List.foldl_cons, ih, List.map_cons, List.flatten_cons, List.foldl_append,
      processContainer_eq_urls decode oc acc]

theorem extractDocLinks_eq_urls (decode : String → String) (blocks : List Block) :
    extractDocLinks decode blocks =
      List.foldl (extractFromUrl decode) [] (urlsOfBlocks blocks) := by
  suffices h : ∀ acc, List.foldl (fun acc b => (containersOf b).foldl (processContainer decode) acc) acc blocks =
      List.foldl (extractFromUrl decode) acc ((blocks.map blockUrls).flatten) from h []
  induction blocks with
  | nil => intro acc; rfl
  | cons b blocks ih =>
    intro acc
    rw [List.foldl_cons, ih, List.map_cons, List.flatten_cons, List.foldl_append]
    rw [foldl_processContainer_eq decode (containersOf b) acc]
    rfl

theorem foldl_dedup_nodup (toks : List String) :
    ∀ acc : List String, acc.Nodup →
      (List.foldl (fun a tok => if a.contains tok then a else a ++ [tok]) acc toks).Nodup := by
  induction toks with
  | nil => intro acc h; exact h
  | cons t ts ih =>
    intro acc h
    rw [List.foldl_cons]
    by_cases hm : t ∈ acc
    · rw [if_pos (List.elem_iff.mpr hm)]
      exact ih acc h
    · rw [if_neg (fun hcc => hm (List.elem_iff.mp hcc))]
      exact ih _ (by simp [List.nodup_append, h, hm])

theorem extractFromUrl_nodup (decode : String → String) (acc : List String) (url : String)
    (h : acc.Nodup) : (extractFromUrl decode acc url).Nodup :=
  foldl_dedup_nodup _ acc h

theorem processElement_nodup (decode : String → String) (a : List String) (e : BlockElement)
    (h : a.Nodup) : (processElement decode a e).Nodup := by
  rw [processElement_urls]
  cases truthyLinkUrl e with
  | none => exact h
  | some u => exact extractFromUrl_nodup decode a u h

theorem processContainer_nodup (decode : String → String) (acc : List String)
    (oc : Option ElementContainer) (h : acc.Nodup) : (processContainer decode acc oc).Nodup := by
  rw [processContainer_eq_urls]
  exact foldl_preserve List.Nodup (extractFromUrl decode)
    (fun a u ha => extractFromUrl_nodup decode a u ha) (containerUrls oc) acc h

theorem extractDocLinks_nodup (decode : String → String) (blocks : List Block) :
    (extractDocLinks decode blocks).Nodup := by
  unfold extractDocLinks
  exact foldl_preserve List.Nodup _
    (fun acc b hacc => foldl_preserve List.Nodup (processContainer decode)
      (fun a oc ha => processContainer_nodup decode a oc ha) (containersOf b) acc hacc)
    blocks [] List.nodup_nil

/-- C1: for every comment discovered under a watched document, the
per-comment step of the orchestrator assigns exactly one outcome, testing
conditions in order with the first match winning: (1) an identifier
already in the document's processed set is skipped with no state change;
(2) otherwise a solved comment is recorded as processed with no reply
generated; (3) otherwise a comment whose reply list already holds a reply
authored under the code's self-identity is recorded as processed with no
new reply; (4) otherwise a reply is generated and a post is attempted,
the identifier being recorded exactly when the post succeeds. -/
theorem claimC1_outcome_precedence (env : Env) (ft : String) (ids : List String)
    (log : CycleLog) (c : FeishuComment) :
    (c.comment_id ∈ ids → handleComment env ft (ids, log) c = (ids, log)) ∧
    (c.comment_id ∉ ids → c.is_solved = true →
      handleComment env ft (ids, log) c = (ids ++ [c.comment_id], log)) ∧
    (c.comment_id ∉ ids → c.is_solved = false →
      (∃ rl, c.reply_list = some rl ∧ ∃ r ∈ rl.replies, r.user_id = "bot") →
      handleComment env ft (ids, log) c = (ids ++ [c.comment_id], log)) ∧
    (c.comment_id ∉ ids → c.is_solved = false →
      (∀ rl, c.reply_list = some rl → ∀ r ∈ rl.replies, r.user_id ≠ "bot") →
      handleComment env ft (ids, log) c =
        (if replyToComment env ft c.comment_id (genReply env c) then ids ++ [c.comment_id] else ids,
          { log with posts := log.posts ++ [⟨ft, c.comment_id, genReply env c⟩] })) := by
  refine ⟨handleComment_skip env ft ids log c, handleComment_solved env ft ids log c, ?_, ?_⟩
  · intro h1 h2 hex
    exact handleComment_botReply env ft ids log c h1 h2 ((hasBotReply_iff c).mpr hex)
  · intro h1 h2 hall
    have hb : hasBotReply c = false := by
      rw [Bool.eq_false_iff]
      intro hbt
      obtain ⟨rl, hrl, r, hr, hb⟩ := (hasBotReply_iff c).mp hbt
      exact hall rl hrl r hr hb
    exact handleComment_new env ft ids log c h1 h2 hb

/-- C1 witness: a solved, unrecorded comment is recorded with no post. -/
theorem claimC1_outcome_precedence_witness :
    handleComment witnessEnv "doc" ([], emptyLog) solvedComment = (["s1"], emptyLog) :=
  (claimC1_outcome_precedence witnessEnv "doc" [] emptyLog solvedComment).2.1
    (List.not_mem_nil _) rfl

/-- C3: across one full poll cycle, each document's recorded processed
set only grows (every identifier present at the start is present at the
end), and a duplicate-free processed list stays duplicate-free. -/
theorem claimC3_monotone_processed (env : Env) (config : PluginConfig) (now : Nat)
    (s : ProcessedState) (ft : String) :
    (∀ x ∈ procSet s ft, x ∈ procSet (pollDocumentComments env config now s).1 ft) ∧
      ((procSet s ft).Nodup → (procSet (pollDocumentComments env config now s).1 ft).Nodup) := by
  simp only [pollDocumentComments]
  by_cases hen : config.enabled
  · rw [if_neg (by simp [hen])]
    by_cases hw : (resolveWatchedFiles env config).length == 0
    · rw [if_pos hw]
      exact ⟨fun x hx => hx, fun h => h⟩
    · rw [if_neg hw]
      constructor
      · intro x hx
        exact foldl_pollFile_procSet_mono env (resolveWatchedFiles env config) s emptyLog ft x hx
      · intro hnd
        exact foldl_pollFile_procSet_nodup env (resolveWatchedFiles env config) s emptyLog ft hnd
  · rw [if_pos (by simp [hen])]
    exact ⟨fun x hx => hx, fun h => h⟩

/-- C3 witness: an identifier recorded before the cycle is still
recorded after it. -/
theorem claimC3_monotone_processed_witness :
    "old1" ∈ procSet (pollDocumentComments c5Env c5Config 3 c5State).1 "docA" :=
  (claimC3_monotone_processed c5Env c5Config 3 c5State "docA").1 "old1" (by decide)

/-- C4: divergence witness for the self-reply check.  A comment whose
reply list already holds the agent's reply authored under the real bot
identity `"ou_3abc"` is not detected by `hasBotReply` (the code compares
against the placeholder `"bot"`), so the orchestrator generates and posts
a second reply instead of recording the comment with no new reply. -/
theorem claimC4_self_reply_divergence :
    hasBotReply c4Comment = false ∧
      (handleComment c4Env "docA" ([], emptyLog) c4Comment).2.posts.length = 1 ∧
      (handleComment c4Env "docA" ([], emptyLog) c4Comment).1 = ["c77"] := by
  refine ⟨rfl, rfl, rfl⟩

/-- C8: extraction over a heading block linking `docx/ABC123` and a
bullet block linking `wiki/XYZ789` yields `["ABC123", "XYZ789"]` in that
first-seen order, and for every block list the extracted token list has
no duplicates. -/
theorem claimC8_extraction_order_nodup :
    extractDocLinks id [c8HeadingBlock, c8BulletBlock] = ["ABC123", "XYZ789"] ∧
      ∀ (decode : String → String) (blocks : List Block), (extractDocLinks decode blocks).Nodup := by
  exact ⟨by decide, fun decode blocks => extractDocLinks_nodup decode blocks⟩

/-- C9 counterexample: the fallback string returned when the agent
invocation throws differs from the fallback string returned when the
invocation resolves with a missing response field, so there is no single
fixed fallback string covering both cases. -/
theorem claimC9_counterexample :
    processCommentWithAgent (fun _ => .error ()) "问题" none = "抱歉，处理评论时遇到了问题，请稍后再试。" ∧
      processCommentWithAgent (fun _ => .ok none) "问题" none = "抱歉，我暂时无法处理这条评论。" ∧
      processCommentWithAgent (fun _ => .error ()) "问题" none ≠
        processCommentWithAgent (fun _ => .ok none) "问题" none := by
  refine ⟨rfl, rfl, by decide⟩

/-- C9 (amended): reply generation always resolves to a string; it
returns one fixed fallback string when the agent invocation throws, and
another fixed fallback string when the invocation resolves with a
missing or empty response field; a nonempty response is returned as is. -/
theorem claimC9_fallback_cases (invoke : String → Except Unit (Option String))
    (text : String) (quote : Option String) :
    (invoke (buildPrompt text quote) = .error () →
      processCommentWithAgent invoke text quote = "抱歉，处理评论时遇到了问题，请稍后再试。") ∧
    (invoke (buildPrompt text quote) = .ok none →
      processCommentWithAgent invoke text quote = "抱歉，我暂时无法处理这条评论。") ∧
    (invoke (buildPrompt text quote) = .ok (some "") →
      processCommentWithAgent invoke text quote = "抱歉，我暂时无法处理这条评论。") ∧
    (∀ str, str ≠ "" → invoke (buildPrompt text quote) = .ok (some str) →
      processCommentWithAgent invoke text quote = str) := by
  refine ⟨?_, ?_, ?_, ?_⟩
  · intro h; simp [processCommentWithAgent, h]
  · intro h; simp [processCommentWithAgent, h]
  · intro h; simp [processCommentWithAgent, h]
  · intro str hs h; simp [processCommentWithAgent, h, hs]

/-- C9 witness: a throwing invocation yields the thrown-case fallback. -/
theorem claimC9_fallback_cases_witness :
    processCommentWithAgent (fun _ => .error ()) "hi" none = "抱歉，处理评论时遇到了问题，请稍后再试。" :=
  (claimC9_fallback_cases (fun _ => .error ()) "hi" none).1 rfl

/-- C10: link extraction is a function of only the truthy hyperlink URLs
attached to text-run styles (`text_run.text_element_style.link.url`), and
a document URL present only as plain text in a text run, with no link
style attached, contributes no token: such a block has no style URLs and
extraction over it yields the empty list. -/
theorem claimC10_style_links_only :
    (∀ (decode : String → String) (blocks : List Block),
      extractDocLinks decode blocks = List.foldl (extractFromUrl decode) [] (urlsOfBlocks blocks)) ∧
      urlsOfBlocks [c10PlainTextBlock] = [] ∧
      extractDocLinks id [c10PlainTextBlock] = [] := by
  exact ⟨fun decode blocks => extractDocLinks_eq_urls decode blocks, rfl, by decide⟩

/-- C2: for a fetched comment that is new and unhandled (not recorded,
not solved, no self-reply detected), its identifier is in the persisted
processed set of its document at the end of the cycle exactly when
posting the generated reply succeeded; on posting failure it stays
unrecorded and is therefore eligible again next cycle. -/
theorem claimC2_record_iff_post_success (env : Env) (config : PluginConfig) (now : Nat)
    (s : ProcessedState) (ft : String) (resp : CommentsApiResponse) (c : FeishuComment)
    (hen : config.enabled = true)
    (hnd : (resolveWatchedFiles env config).Nodup)
    (hft : ft ∈ resolveWatchedFiles env config)
    (hresp : env.fetchResult ft = .ok resp)
    (hcnd : ((getFileComments resp).map (fun d => d.comment_id)).Nodup)
    (hc : c ∈ getFileComments resp)
    (hnew : c.comment_id ∉ procSet s ft)
    (hsol : c.is_solved = false)
    (hbot : hasBotReply c = false) :
    (c.comment_id ∈ procSet (pollDocumentComments env config now s).1 ft ↔
      replyToComment env ft c.comment_id (genReply env c) = true) := by
  have hlen : (resolveWatchedFiles env config).length ≠ 0 := by
    intro h0
    rw [List.length_eq_zero] at h0
    rw [h0] at hft
    exact (List.not_mem_nil ft) hft
  rw [pollDocumentComments_procSet env config now s hen hlen ft]
  obtain ⟨l₁, l₂, hsplit⟩ := List.append_of_mem hft
  have hmid := List.nodup_middle.mp (by rw [hsplit] at hnd; exact hnd)
  have hft12 := (List.nodup_cons.mp hmid).1
  have hft1 : ft ∉ l₁ := fun h => hft12 (List.mem_append_left _ h)
  have hft2 : ft ∉ l₂ := fun h => hft12 (List.mem_append_right _ h)
  rw [hsplit, List.foldl_append, List.foldl_cons]
  rw [show List.foldl (pollFile env) (s, emptyLog) l₁ =
    ((List.foldl (pollFile env) (s, emptyLog) l₁).1,
      (List.foldl (pollFile env) (s, emptyLog) l₁).2) from rfl]
  rw [pollFile_ok env _ _ ft resp hresp]
  rw [foldl_pollFile_procSet_notmem env l₂ _ _ ft hft2]
  simp only [procSet, recGet_recSet_self, Option.getD_some]
  rw [show (recGet (List.foldl (pollFile env) (s, emptyLog) l₁).1.processedComments ft).getD [] =
    procSet (List.foldl (pollFile env) (s, emptyLog) l₁).1 ft from rfl]
  rw [foldl_pollFile_procSet_notmem env l₁ s emptyLog ft hft1]
  exact foldl_handleComment_unhandled_iff env ft (getFileComments resp) (procSet s ft) _ c
    hcnd hc hnew hsol hbot

/-- C2 witness: a new comment whose posting succeeds is recorded. -/
theorem claimC2_record_iff_post_success_witness :
    ("n1" ∈ procSet (pollDocumentComments c2Env c2Config 7 c2State).1 "docB" ↔
      replyToComment c2Env "docB" "n1" (genReply c2Env c2Comment) = true) :=
  claimC2_record_iff_post_success c2Env c2Config 7 c2State "docB" ⟨0, some ⟨some [c2Comment]⟩⟩
    c2Comment rfl (by decide) (by decide) rfl (by decide) (by decide) (by decide) rfl rfl

/-- C5 counterexample: in a scenario where every fetched comment is
already recorded as processed, one cycle still changes the persisted
state (it overwrites `lastPollTime` with the cycle's wall-clock time),
and a second consecutive cycle changes it again. -/
theorem claimC5_counterexample :
    noNewComments c5Env c5State (resolveWatchedFiles c5Env c5Config) ∧
      (pollDocumentComments c5Env c5Config 1 c5State).1 ≠ c5State ∧
      (pollDocumentComments c5Env c5Config 2 (pollDocumentComments c5Env c5Config 1 c5State).1).1 ≠
        (pollDocumentComments c5Env c5Config 1 c5State).1 := by
  refine ⟨?_, by decide, by decide⟩
  intro ft hft resp hresp c hc
  have hftA : ft = "docA" := by
    have hres : resolveWatchedFiles c5Env c5Config = ["docA"] := rfl
    rw [hres] at hft
    simpa using hft
  subst hftA
  have hr : (Except.ok (⟨0, some ⟨some [c5Comment]⟩⟩ : CommentsApiResponse) :
      Except Unit CommentsApiResponse) = Except.ok resp := hresp
  injection hr with hr
  rw [← hr] at hc
  have hc5 : c = c5Comment := by simpa [getFileComments] using hc
  rw [hc5]
  decide

/-- C5 (amended): two consecutive cycles in which every fetched comment
is already recorded as processed post zero replies and leave every
document's processed-identifier set unchanged; only `lastPollTime` of
the persisted state is rewritten each cycle. -/
theorem claimC5_idempotent_sets (env : Env) (config : PluginConfig) (now₁ now₂ : Nat)
    (s : ProcessedState) (h : noNewComments env s (resolveWatchedFiles env config)) :
    (pollDocumentComments env config now₁ s).2.posts = [] ∧
      (pollDocumentComments env config now₂ (pollDocumentComments env config now₁ s).1).2.posts = [] ∧
      ∀ k, procSet (pollDocumentComments env config now₂
        (pollDocumentComments env config now₁ s).1).1 k = procSet s k := by
  obtain ⟨h1posts, h1sets⟩ := cycle_noNew env config now₁ s h
  have h' : noNewComments env (pollDocumentComments env config now₁ s).1
      (resolveWatchedFiles env config) := by
    intro ft hft resp hresp c hc
    rw [h1sets ft]
    exact h ft hft resp hresp c hc
  obtain ⟨h2posts, h2sets⟩ := cycle_noNew env config now₂ _ h'
  exact ⟨h1posts, h2posts, fun k => by rw [h2sets k, h1sets k]⟩

/-- C5 witness: the concrete no-new-comments scenario posts nothing in
either cycle and keeps every processed set. -/
theorem claimC5_idempotent_sets_witness :
    (pollDocumentComments c5Env c5Config 1 c5State).2.posts = [] ∧
      (pollDocumentComments c5Env c5Config 2 (pollDocumentComments c5Env c5Config 1 c5State).1).2.posts = [] ∧
      ∀ k, procSet (pollDocumentComments c5Env c5Config 2
        (pollDocumentComments c5Env c5Config 1 c5State).1).1 k = procSet c5State k :=
  claimC5_idempotent_sets c5Env c5Config 1 2 c5State (by
    intro ft hft resp hresp c hc
    have hftA : ft = "docA" := by
      have hres : resolveWatchedFiles c5Env c5Config = ["docA"] := rfl
      rw [hres] at hft
      simpa using hft
    subst hftA
    have hr : (Except.ok (⟨0, some ⟨some [c5Comment]⟩⟩ : CommentsApiResponse) :
        Except Unit CommentsApiResponse) = Except.ok resp := hresp
    injection hr with hr
    rw [← hr] at hc
    have hc5 : c = c5Comment := by simpa [getFileComments] using hc
    rw [hc5]
    decide)

/-- C6: `getFileComments` returns the service's item list on success and
the empty list on an API-level error, and a transport failure while
fetching one document's comments is a no-op for the cycle: the per-file
loop over a watched list containing the failing document produces the
same state and the same posted replies as the loop without it. -/
theorem claimC6_fetch_contract (resp : CommentsApiResponse) (items : List FeishuComment)
    (env : Env) (s : ProcessedState) (log : CycleLog) (l₁ l₂ : List String) (b : String) :
    (resp.code = 0 → resp.data = some ⟨some items⟩ → getFileComments resp = items) ∧
    (resp.code ≠ 0 → getFileComments resp = []) ∧
    (env.fetchResult b = .error () →
      (List.foldl (pollFile env) (s, log) (l₁ ++ b :: l₂)).1 =
        (List.foldl (pollFile env) (s, log) (l₁ ++ l₂)).1 ∧
      (List.foldl (pollFile env) (s, log) (l₁ ++ b :: l₂)).2.posts =
        (List.foldl (pollFile env) (s, log) (l₁ ++ l₂)).2.posts) := by
  refine ⟨?_, ?_, ?_⟩
  · intro h0 hd
    simp [getFileComments, h0, hd]
  · intro h0
    simp [getFileComments, h0]
  · intro hb
    rw [List.foldl_append, List.foldl_append, List.foldl_cons]
    rw [show List.foldl (pollFile env) (s, log) l₁ =
      ((List.foldl (pollFile env) (s, log) l₁).1,
        (List.foldl (pollFile env) (s, log) l₁).2) from rfl]
    rw [pollFile_error env _ _ b hb]
    exact foldl_pollFile_posts_congr env l₂ _ _ _ rfl

/-- C6 witness: a failing middle document leaves the final state of the
cycle's per-file loop unchanged. -/
theorem claimC6_fetch_contract_witness :
    (List.foldl (pollFile witnessEnv) (c5State, emptyLog) (["x"] ++ "b" :: ["y"])).1 =
      (List.foldl (pollFile witnessEnv) (c5State, emptyLog) (["x"] ++ ["y"])).1 :=
  ((claimC6_fetch_contract ⟨0, none⟩ [] witnessEnv c5State emptyLog ["x"] ["y"] "b").2.2 rfl).1

/-- C7: when an index document is configured but link extraction from it
yields zero tokens, the cycle's watched list is the explicit
`watchedFiles` list; and when that list is also empty the cycle returns
the state untouched with an empty effect log (no fetches, no posts). -/
theorem claimC7_index_fallback (env : Env) (config : PluginConfig) (idx : String)
    (h1 : config.indexDocument = some idx)
    (h2 : getWatchedFilesFromIndex env idx = []) :
    resolveWatchedFiles env config = config.watchedFiles ∧
      (config.watchedFiles = [] →
        ∀ now s, pollDocumentComments env config now s = (s, emptyLog)) := by
  have hres : resolveWatchedFiles env config = config.watchedFiles := by
    by_cases hidx : idx = ""
    · cases hwf : config.watchedFiles with
      | nil => simp [resolveWatchedFiles, h1, hidx, hwf]
      | cons a l => simp [resolveWatchedFiles, h1, hidx, hwf]
    · cases hwf : config.watchedFiles with
      | nil => simp [resolveWatchedFiles, h1, hidx, h2, hwf]
      | cons a l => simp [resolveWatchedFiles, h1, hidx, h2, hwf]
  refine ⟨hres, ?_⟩
  intro hwf now s
  simp only [pollDocumentComments]
  by_cases hen : config.enabled
  · rw [if_neg (by simp [hen]), if_pos (by simp [hres, hwf])]
  · rw [if_pos (by simp [hen])]

/-- C7 witness: an unreadable index with no explicit list yields an
empty watched list and a no-op cycle. -/
theorem claimC7_index_fallback_witness :
    resolveWatchedFiles witnessEnv c7Config = [] ∧
      pollDocumentComments witnessEnv c7Config 3 c5State = (c5State, emptyLog) := by
  have h := claimC7_index_fallback witnessEnv c7Config "idx" rfl rfl
  exact ⟨h.1, h.2 rfl 3 c5State⟩
